import Mathlib

/-!
Verification development for the BPMN-analyzer repository.

The JavaScript sources are shallowly embedded:
JS `Map` objects become insertion-ordered association lists,
JS `Set` objects become insertion-ordered duplicate-free lists,
JS numbers become `Nat`, `Int` or `ℚ` (exact rationals) as appropriate,
fallible methods (those that `throw`) return `Except String _`,
and `Date` parsing (a host builtin) is represented by storing the parse
outcome (`some` epoch milliseconds, or `none` for an invalid date) on the event.
-/

namespace BPMN

/-! ## JS collection primitives -/

/-- Lookup in a JS `Map` modelled as an association list (first match wins). -/
def mapGet {α : Type} : List (String × α) → String → Option α
  | [], _ => none
  | p :: rest, k => if p.1 == k then some p.2 else mapGet rest k

/-- Lookup with a default, modelling `map.get(k) || d`. -/
def mapGetD {α : Type} (m : List (String × α)) (k : String) (d : α) : α :=
  (mapGet m k).getD d

/-- Key-membership test, modelling `map.has(k)`. -/
def mapHas {α : Type} (m : List (String × α)) (k : String) : Bool :=
  (mapGet m k).isSome

/-- JS `map.set(k, v)`: overwrite in place if the key exists, else append. -/
def mapSet {α : Type} : List (String × α) → String → α → List (String × α)
  | [], k, v => [(k, v)]
  | p :: rest, k, v => if p.1 == k then (k, v) :: rest else p :: mapSet rest k v

/-- In-place mutation of the value stored under a key, modelling
`map.get(k).field.push(x)` style updates on a JS `Map` of objects. -/
def mapUpdate {α : Type} (m : List (String × α)) (k : String) (f : α → α) :
    List (String × α) :=
  m.map (fun p => if p.1 == k then (p.1, f p.2) else p)

/-- JS `set.add(x)`: append if not present (insertion order preserved). -/
def setAdd (s : List String) (x : String) : List String :=
  if s.contains x then s else s ++ [x]

/-- Sum of the values of an association list with `Nat` values. -/
def sumValues {α : Type} (m : List (α × Nat)) : Nat :=
  (m.map (·.2)).sum

/-- Boolean test that `needle` is a prefix of `hay` (on character lists). -/
def charsLead : List Char → List Char → Bool
  | [], _ => true
  | _ :: _, [] => false
  | a :: as, b :: bs => a == b && charsLead as bs

/-- Boolean test that `needle` occurs contiguously inside `hay`. -/
def charsContain (needle : List Char) : List Char → Bool
  | [] => needle.isEmpty
  | c :: rest => charsLead needle (c :: rest) || charsContain needle rest

/-- JS `String.prototype.includes` (case-sensitive substring test). -/
def jsIncludes (s pat : String) : Bool :=
  charsContain pat.data s.data

/-- Boolean success test for `Except`. -/
def exceptIsOk {ε α : Type} : Except ε α → Bool
  | .ok _ => true
  | .error _ => false

/-! ## Data model (§3 of the source layout)

`Event` carries the already-parsed timestamp: `new Date(e.timestamp).getTime()`
is `some` milliseconds for a parsable timestamp and `none` (JS `NaN`) otherwise.
-/

structure Event where
  caseId : String
  activity : String
  timestamp : Option Int
deriving DecidableEq

structure DFG where
  nodes : List String
  startNodes : List String
  endNodes : List String
  relations : List (String × Nat)

structure Node where
  id : String
  name : String
  type : String
  incoming : List String
  outgoing : List String
  lane : Option String := none
deriving DecidableEq

structure Edge where
  id : String
  source : String
  target : String
  weight : Option Nat := none
  condition : Option String := none
deriving DecidableEq

/-- Entries of `graph.startEvents` / `graph.endEvents`: the mining engine pushes
plain `{ id, type }` objects there, not full nodes. -/
structure SEvent where
  id : String
  type : String
deriving DecidableEq

structure ProcessGraph where
  nodes : List (String × Node)
  edges : List (String × Edge)
  gateways : List Node
  startEvents : List SEvent
  endEvents : List SEvent
deriving DecidableEq

/-- The `process` object handed to the analysis engine (only `process.graph`
is consulted by the embedded methods). -/
structure Process where
  graph : ProcessGraph

/-! ## MiningEngine (src/unnamed/part_009) -/

/-- Comparator-induced order for the sort in `extractTraces`:
`(a, b) => new Date(a.timestamp) - new Date(b.timestamp)`.
`a` may stay before `b` iff the comparator value is `≤ 0`; a `NaN`
comparator value (either date invalid) is treated as `0` by the JS sort. -/
def dateCmpLe (a b : Event) : Bool :=
  match a.timestamp, b.timestamp with
  | some x, some y => decide (x - y ≤ 0)
  | _, _ => true

/-- Embeds `MiningEngine.extractTraces`: stable-sort by timestamp, then group
activities by case id in a JS `Map` (insertion order of first occurrence). -/
def extractTraces (log : List Event) : List (String × List String) :=
  let sortedLog := log.mergeSort dateCmpLe
  sortedLog.foldl
    (fun traces e => mapSet traces e.caseId (mapGetD traces e.caseId [] ++ [e.activity]))
    []

def emptyDFG : DFG := { nodes := [], startNodes := [], endNodes := [], relations := [] }

/-- The relation key `` `${current} -> ${next}` ``. -/
def relKey (current next : String) : String := current ++ " -> " ++ next

/-- One iteration of the trace loop in `MiningEngine.buildDFG`.  The source
interleaves `nodes.add` with `relations.set` inside one indexed loop; the two
fields are independent, so the final state is the two folds below. -/
def processTrace (d : DFG) : List String → DFG
  | [] => d
  | a :: rest =>
    { d with
      startNodes := setAdd d.startNodes a
      endNodes := setAdd d.endNodes ((a :: rest).getLast (List.cons_ne_nil a rest))
      nodes := (a :: rest).foldl setAdd d.nodes
      relations := ((a :: rest).zip rest).foldl
        (fun m p => mapSet m (relKey p.1 p.2) (mapGetD m (relKey p.1 p.2) 0 + 1))
        d.relations }

/-- Embeds `MiningEngine.buildDFG`. -/
def buildDFG (traces : List (String × List String)) : DFG :=
  traces.foldl (fun d t => processTrace d t.2) emptyDFG

/-- Embeds the id sanitization: every character outside a-zA-Z0-9 is replaced by an underscore (the JS replace with a global character-class regex). -/
def sanitize (s : String) : String :=
  String.mk (s.data.map (fun c => if c.isAlphanum then c else '_'))

def taskId (activity : String) : String := "task_" ++ sanitize activity

def startId (activity : String) : String := "start_" ++ sanitize activity

def startEdgeId (activity : String) : String :=
  "edge_" ++ startId activity ++ "_" ++ taskId activity

/-- Structural worker for `jsSplit`: scans left to right, cutting a segment
at each occurrence of the separator.  The fuel argument (instantiated to more
than the input length) only makes the recursion structural. -/
def splitFuel (sep : List Char) : Nat → List Char → List Char → List (List Char)
  | _, [], cur => [cur.reverse]
  | 0, l, cur => [cur.reverse ++ l]
  | fuel + 1, c :: rest, cur =>
    if charsLead sep (c :: rest) then
      cur.reverse :: splitFuel sep fuel (List.drop sep.length (c :: rest)) []
    else
      splitFuel sep fuel rest (c :: cur)

/-- JS `String.prototype.split` for a non-empty plain-string separator. -/
def jsSplit (s sep : String) : List String :=
  (splitFuel sep.data (s.data.length + 1) s.data []).map String.mk

/-- Embeds the relation-key destructuring: the key is split on the
separator string built of space, dash, greater-than, space, and elements 0
resp. 1 of the split are taken (keys produced by `buildDFG` always split
into exactly two parts). -/
def relSrc (k : String) : String := (jsSplit k " -> ").getD 0 ""

def relTgt (k : String) : String := (jsSplit k " -> ").getD 1 ""

def relSrcId (k : String) : String := taskId (relSrc k)

def relTgtId (k : String) : String := taskId (relTgt k)

def relEdgeId (k : String) : String := "edge_" ++ relSrcId k ++ "_" ++ relTgtId k

def mkTaskNode (activity : String) : Node :=
  { id := taskId activity, name := activity, type := "task", incoming := [], outgoing := [] }

def mkStartEvent (activity : String) : SEvent :=
  { id := startId activity, type := "startEvent" }

def mkStartEdge (activity : String) : Edge :=
  { id := startEdgeId activity, source := startId activity, target := taskId activity }

def mkRelEdge (k : String) (count : Nat) : Edge :=
  { id := relEdgeId k, source := relSrcId k, target := relTgtId k, weight := some count }

/-- The per-relation step of the third loop of `createGraphFromDFG`:
record the edge, then push its id onto the `outgoing` list of the source
node and the `incoming` list of the target node (guarded by
`graph.nodes.has`). -/
def relStep (st : List (String × Node) × List (String × Edge)) (kc : String × Nat) :
    List (String × Node) × List (String × Edge) :=
  let eId := relEdgeId kc.1
  let ed := mapSet st.2 eId (mkRelEdge kc.1 kc.2)
  let nm1 := if mapHas st.1 (relSrcId kc.1) then
      mapUpdate st.1 (relSrcId kc.1) (fun n => { n with outgoing := n.outgoing ++ [eId] })
    else st.1
  let nm2 := if mapHas nm1 (relTgtId kc.1) then
      mapUpdate nm1 (relTgtId kc.1) (fun n => { n with incoming := n.incoming ++ [eId] })
    else nm1
  (nm2, ed)

/-- Embeds `MiningEngine.createGraphFromDFG`.  The source builds `startEvents` and the
start edges in a single loop over `dfg.startNodes`; the two accumulators are
independent, so they appear here as two folds over the same list. -/
def createGraphFromDFG (dfg : DFG) : ProcessGraph :=
  let nodes0 := dfg.nodes.foldl (fun m a => mapSet m (taskId a) (mkTaskNode a)) []
  let startEvents := dfg.startNodes.foldl (fun se a => se ++ [mkStartEvent a]) []
  let edges1 := dfg.startNodes.foldl (fun ed a => mapSet ed (startEdgeId a) (mkStartEdge a)) []
  let st := dfg.relations.foldl relStep (nodes0, edges1)
  { nodes := st.1, edges := st.2, gateways := [], startEvents := startEvents, endEvents := [] }

/-- Embeds `MiningEngine.countVariants`: the number of distinct semicolon-joined trace strings. -/
def countVariants (traces : List (String × List String)) : Nat :=
  (traces.foldl (fun vs t => setAdd vs (String.intercalate ";" t.2)) []).length

structure DiscoverResult where
  graph : ProcessGraph
  caseCount : Nat
  eventCount : Nat
  variants : Nat

/-- Embeds `MiningEngine.discover` (the host-clock `discoveryTime` field is omitted). -/
def discover (log : List Event) : Except String DiscoverResult :=
  if log.length = 0 then .error "Kein Event Log vorhanden"
  else
    let traces := extractTraces log
    let dfg := buildDFG traces
    .ok { graph := createGraphFromDFG dfg
          caseCount := traces.length
          eventCount := log.length
          variants := countVariants traces }

/-! ## AnalysisEngine (src/src/modules/validator.js) -/

def nodeValues (g : ProcessGraph) : List Node := g.nodes.map (·.2)

/-- Embeds `AnalysisEngine.countConnectedComponents` — the source returns the
constant `1` (its comment: "Simplified assumption"). -/
def countConnectedComponents (_g : ProcessGraph) : Nat := 1

/-- Embeds `AnalysisEngine.calculateMcCabeComplexity`: `E - N + 2P`. -/
def calculateMcCabeComplexity (g : ProcessGraph) : Int :=
  (g.edges.length : Int) - (g.nodes.length : Int) + 2 * (countConnectedComponents g : Int)

/-- Embeds `AnalysisEngine.identifyBottlenecks`: ids of nodes with more than two
incoming edges, in node insertion order. -/
def identifyBottlenecks (g : ProcessGraph) : List String :=
  ((nodeValues g).filter (fun n => decide (2 < n.incoming.length))).map (·.id)

/-- Embeds the repeated task selection: the type string is truthy and contains the capitalized substring Task. -/
def isTaskTyped (n : Node) : Bool :=
  !(n.type == "") && jsIncludes n.type "Task"

def taskNodes (g : ProcessGraph) : List Node :=
  (nodeValues g).filter isTaskTyped

/-- Embeds `AnalysisEngine.estimateProcessDuration`: 30 minutes per task. -/
def estimateProcessDuration (tasks : List Node) : Nat := tasks.length * 30

structure PerformanceResult where
  estimatedDuration : Nat
  bottlenecks : List String
  waitTimes : Nat
  resourceUtilization : ℚ
  criticalPath : List String

/-- Embeds `AnalysisEngine.analyzePerformance`. -/
def analyzePerformance (p : Process) : PerformanceResult :=
  { estimatedDuration := estimateProcessDuration (taskNodes p.graph)
    bottlenecks := identifyBottlenecks p.graph
    waitTimes := 15
    resourceUtilization := 3/4
    criticalPath := [] }

structure SubCheck where
  name : String
  passed : Bool
deriving DecidableEq

structure ComplianceCheck where
  name : String
  passed : Bool
  score : Nat
  details : List SubCheck := []
deriving DecidableEq

/-- Embeds `AnalysisEngine.checkISO9001`. -/
def checkISO9001 (p : Process) : ComplianceCheck :=
  let nv := nodeValues p.graph
  let hasStart := decide (0 < p.graph.startEvents.length)
  let hasEnd := decide (0 < p.graph.endEvents.length)
  let hasMinTasks := decide (2 ≤ (nv.filter isTaskTyped).length)
  let allNamed := (nv.filter isTaskTyped).all (fun n => !(n.name == "") && !(n.name == n.id))
  let score := (if hasStart then 25 else 0) + (if hasEnd then 25 else 0)
    + (if hasMinTasks then 25 else 0) + (if allNamed then 25 else 0)
  { name := "ISO 9001:2015"
    passed := decide (80 ≤ score)
    score := score
    details := [ { name := "Start-Ereignis vorhanden", passed := hasStart }
               , { name := "End-Ereignis vorhanden", passed := hasEnd }
               , { name := "Minimale Prozess-Tiefe", passed := hasMinTasks }
               , { name := "Konsistente Benennung", passed := allNamed } ] }

/-- The regex `/daten|date|user|kunde|person/i` applied to a node name. -/
def sensitiveNameTest (name : String) : Bool :=
  let lowered := name.data.map Char.toLower
  ["daten", "date", "user", "kunde", "person"].any (fun k => charsContain k.data lowered)

/-- Embeds `AnalysisEngine.checkGDPR`.  Note the source literally computes
`passed: !sensitiveDataMentioned || true`. -/
def checkGDPR (p : Process) : ComplianceCheck :=
  let sensitiveDataMentioned :=
    (nodeValues p.graph).any (fun n => !(n.name == "") && sensitiveNameTest n.name)
  { name := "GDPR / DS-GVO"
    passed := !sensitiveDataMentioned || true
    score := if sensitiveDataMentioned then 75 else 100 }

/-- Embeds `AnalysisEngine.checkSOX`. -/
def checkSOX (p : Process) : ComplianceCheck :=
  let hasControl := decide (0 < p.graph.gateways.length)
  { name := "SOX Compliance", passed := hasControl, score := if hasControl then 100 else 50 }

/-- Embeds `AnalysisEngine.checkAccessibility`. -/
def checkAccessibility (_p : Process) : ComplianceCheck :=
  { name := "Barrierefreiheit (WCAG)", passed := true, score := 95 }

/-- Embeds `AnalysisEngine.calculateComplianceScore`: `Math.floor` of the mean score
(`Nat` division floors; the engine only calls this with four checks). -/
def calculateComplianceScore (checks : List ComplianceCheck) : Nat :=
  (checks.foldl (fun acc c => acc + c.score) 0) / checks.length

structure ComplianceResult where
  standards : List ComplianceCheck
  overallScore : Nat
  failedChecks : Nat
  recommendations : List String

/-- Embeds `AnalysisEngine.analyzeCompliance`. -/
def analyzeCompliance (p : Process) : ComplianceResult :=
  let checks := [checkISO9001 p, checkGDPR p, checkSOX p, checkAccessibility p]
  { standards := checks
    overallScore := calculateComplianceScore checks
    failedChecks := (checks.filter (fun c => !c.passed)).length
    recommendations := [] }

/-! ## Specification-side connected components

`specConnectedComponents` follows the words of the specification (§4.4): the
number of connected components obtained by actual traversal of the undirected
projection of the edges.  It exists only to be compared against the source
function `countConnectedComponents`, which it is not translated from. -/

def findComp (comps : List (List String)) (x : String) : Option (List String) :=
  comps.find? (fun c => c.contains x)

def uniteComps (comps : List (List String)) (a b : String) : List (List String) :=
  match findComp comps a, findComp comps b with
  | some ca, some cb =>
    if ca == cb then comps
    else (ca ++ cb) :: comps.filter (fun c => !(c == ca) && !(c == cb))
  | _, _ => comps

/-- Number of connected components of the undirected projection of the edges
(each node starts alone; every edge merges the components of its endpoints). -/
def specConnectedComponents (g : ProcessGraph) : Nat :=
  let initComps := (g.nodes.map (·.1)).map (fun i => [i])
  (g.edges.foldl (fun comps e => uniteComps comps e.2.source e.2.target) initComps).length

/-! ## AIOptimizer (src/src/modules/ai-optimizer.js)

JS numbers are modelled as exact rationals (`0.4` as `4/10`, etc.). -/

structure Recommendation where
  type : String := ""
  title : String := ""
  description : String := ""
  actions : List (String × List String) := []
  impact : Option ℚ := none
  roi : Option ℚ := none
  effort : Option ℚ := none
  confidence : Option ℚ := none

/-- Embeds `AIOptimizer.calculateRecommendationScore`: weighted sum over the fields
present on the recommendation (`undefined` fields are skipped), clamped by
`Math.max(0, Math.min(1, score))`. -/
def calculateRecommendationScore (r : Recommendation) : ℚ :=
  let score :=
    (match r.impact with | some v => v * (4/10) | none => 0)
    + (match r.roi with | some v => v * (3/10) | none => 0)
    + (match r.effort with | some v => v * (-2/10) | none => 0)
    + (match r.confidence with | some v => v * (1/10) | none => 0)
  max 0 (min 1 score)

/-- Embeds `AIOptimizer.estimateTimeline`: returns the effort unchanged. -/
def estimateTimeline (effort : Option ℚ) : Option ℚ := effort

structure ScoredRecommendation where
  base : Recommendation
  priority : String
  score : ℚ
  timeline : Option ℚ

/-- The per-element map inside `AIOptimizer.prioritizeRecommendations`. -/
def enrichRecommendation (r : Recommendation) : ScoredRecommendation :=
  let score := calculateRecommendationScore r
  { base := r
    priority := if (7:ℚ)/10 < score then "high" else if (4:ℚ)/10 < score then "medium" else "low"
    score := score
    timeline := estimateTimeline r.effort }

/-- The order induced by the comparator `(a, b) => b.score - a.score`:
`a` may stay before `b` iff the comparator value is `≤ 0`. -/
def scoreDescLe (a b : ScoredRecommendation) : Bool :=
  decide (b.score ≤ a.score)

/-- Embeds `AIOptimizer.prioritizeRecommendations`: enrich, then the (stable) JS sort
by descending score, modelled by the stable `List.mergeSort`. -/
def prioritizeRecommendations (recs : List Recommendation) : List ScoredRecommendation :=
  (recs.map enrichRecommendation).mergeSort scoreDescLe

/-- The fixed simulated AI recommendation appended by `enhanceWithAI`. -/
def aiPatternRecommendation : Recommendation :=
  { type := "ai-pattern"
    title := "AI-based process improvement"
    description := "Similar processes in industry show optimization potential"
    actions := [("Apply Lean principles", [])]
    confidence := some (85/100) }

/-- Embeds `AIOptimizer.enhanceWithAI`. -/
def enhanceWithAI (recs : List Recommendation) : List Recommendation :=
  recs ++ [aiPatternRecommendation]

/-- The slice of the analysis object consumed by the optimizer strategies. -/
structure Analysis where
  performance : PerformanceResult

structure SlowPath where
  nodes : List Node

structure ParallelOp where
  tasks : List Node
  estimatedImprovement : Nat

/-- Placeholder in the source: unconditionally throws. -/
def identifySlowPaths (_g : ProcessGraph) (_perf : PerformanceResult) :
    Except String (List SlowPath) :=
  .error "identifySlowPaths method not implemented"

/-- Placeholder in the source: unconditionally throws. -/
def findParallelizationOpportunities (_g : ProcessGraph) :
    Except String (List ParallelOp) :=
  .error "findParallelizationOpportunities method not implemented"

/-- Embeds `AIOptimizer.optimizeForPerformance`. -/
def optimizeForPerformance (p : Process) (an : Analysis) :
    Except String (List Recommendation) := do
  let slowPaths ← identifySlowPaths p.graph an.performance
  let parallelizationOps ← findParallelizationOpportunities p.graph
  let recs1 : List Recommendation :=
    if 0 < slowPaths.length then
      [{ type := "performance"
         title := "Optimize slow process paths"
         description := toString slowPaths.length ++ " paths with high duration identified"
         actions := slowPaths.map (fun path => ("Check automation", path.nodes.map (·.id)))
         roi := some (7/10)
         effort := some (6/10) }]
    else []
  let recs2 : List Recommendation :=
    if 0 < parallelizationOps.length then
      [{ type := "parallelization"
         title := "Parallelization potential"
         description := toString parallelizationOps.length ++ " places for parallel processing"
         actions := parallelizationOps.map (fun op => ("Parallelize sequential tasks", op.tasks.map (·.id)))
         roi := some (8/10)
         effort := some (5/10) }]
    else []
  pure (recs1 ++ recs2)

/-- Embeds `AIOptimizer.optimizeForCost`. -/
def optimizeForCost (_p : Process) (_an : Analysis) : Except String (List Recommendation) :=
  pure []

/-- Placeholder in the source: unconditionally throws. -/
def optimizeForCompliance (_p : Process) (_an : Analysis) :
    Except String (List Recommendation) :=
  .error "optimizeForCompliance method not implemented"

/-- Placeholder in the source: unconditionally throws. -/
def optimizeForSimplicity (_p : Process) (_an : Analysis) :
    Except String (List Recommendation) :=
  .error "optimizeForSimplicity method not implemented"

/-- Embeds `AIOptimizer.optimizeAuto`: runs the table entries for
`performance`, `cost-reduction` and `compliance` in that order and
concatenates their outputs. -/
def optimizeAuto (p : Process) (an : Analysis) : Except String (List Recommendation) := do
  let r1 ← optimizeForPerformance p an
  let r2 ← optimizeForCost p an
  let r3 ← optimizeForCompliance p an
  pure (r1 ++ r2 ++ r3)

/-- The constructor-built `this.strategies` lookup table. -/
def strategyLookup (s : String) :
    Option (Process → Analysis → Except String (List Recommendation)) :=
  if s == "cost-reduction" then some optimizeForCost
  else if s == "performance" then some optimizeForPerformance
  else if s == "compliance" then some optimizeForCompliance
  else if s == "simplicity" then some optimizeForSimplicity
  else if s == "auto" then some optimizeAuto
  else none

/-- Embeds `AIOptimizer.generateRecommendations`. -/
def generateRecommendations (p : Process) (an : Analysis) (strategy : String) :
    Except String (List ScoredRecommendation) :=
  match strategyLookup strategy with
  | none => .error ("Strategy " ++ strategy ++ " not supported")
  | some optimizationFn => do
    let baseRecommendations ← optimizationFn p an
    let enhanced := enhanceWithAI baseRecommendations
    pure (prioritizeRecommendations enhanced)

/-! ## Concrete example inputs -/

/-- A well-formed graph made of two disjoint 2-node/1-edge chains. -/
def twoChains : ProcessGraph :=
  { nodes :=
      [ ("a", { id := "a", name := "A", type := "task", incoming := [], outgoing := ["e1"] })
      , ("b", { id := "b", name := "B", type := "task", incoming := ["e1"], outgoing := [] })
      , ("c", { id := "c", name := "C", type := "task", incoming := [], outgoing := ["e2"] })
      , ("d", { id := "d", name := "D", type := "task", incoming := ["e2"], outgoing := [] }) ]
    edges :=
      [ ("e1", { id := "e1", source := "a", target := "b" })
      , ("e2", { id := "e2", source := "c", target := "d" }) ]
    gateways := []
    startEvents := []
    endEvents := [] }

/-- The graph with zero nodes and zero edges. -/
def emptyGraph : ProcessGraph :=
  { nodes := [], edges := [], gateways := [], startEvents := [], endEvents := [] }

/-- A DFG whose two distinct activities sanitize to the same node id. -/
def collisionDFG : DFG :=
  { nodes := ["A.B", "A_B"], startNodes := [], endNodes := [], relations := [] }

/-- A DFG with a single activity that is also a start activity. -/
def startOnlyDFG : DFG :=
  { nodes := ["A"], startNodes := ["A"], endNodes := ["A"], relations := [] }

/-- The DFG of the end-to-end mining scenario of the specification:
two traces `[A, B]`. -/
def dfgExample : DFG :=
  { nodes := ["A", "B"], startNodes := ["A"], endNodes := ["B"]
    relations := [("A -> B", 2)] }

/-- A single event whose timestamp does not parse (`new Date` gives `NaN`). -/
def badEvent : Event := { caseId := "1", activity := "A", timestamp := none }

/-- A process whose compliance battery scores `[100, 75, 50, 95]`. -/
def complianceExample : Process :=
  ⟨{ nodes :=
       [ ("t1", { id := "t1", name := "Check user data", type := "userTask"
                , incoming := [], outgoing := [] })
       , ("t2", { id := "t2", name := "Approve request", type := "serviceTask"
                , incoming := [], outgoing := [] }) ]
     edges := []
     gateways := []
     startEvents := [{ id := "s1", type := "startEvent" }]
     endEvents := [{ id := "f1", type := "endEvent" }] }⟩

def trivialProcess : Process := ⟨emptyGraph⟩

def trivialAnalysis : Analysis :=
  ⟨{ estimatedDuration := 0, bottlenecks := [], waitTimes := 15
     resourceUtilization := 3/4, criticalPath := [] }⟩

/-- The high-scoring candidate of the determinism example in the specification. -/
def recHi : Recommendation :=
  { impact := some (9/10), roi := some (8/10), effort := some (1/10), confidence := some 1 }

/-- The low-scoring candidate of the determinism example in the specification. -/
def recLo : Recommendation :=
  { impact := some (2/10), roi := some (1/10), effort := some (9/10), confidence := some 0 }

/-- The `(caseId, activity)` pairs recorded across a trace mapping. -/
def tracesPairs (traces : List (String × List String)) : List (String × String) :=
  traces.flatMap (fun t => t.2.map (fun a => (t.1, a)))

/-- Insertion-order deduplication (the key sequence a JS `Map` retains). -/
def dedupKeep (l : List String) : List String := l.foldl setAdd []

/-- Proof device: the effect of a single `relStep` on the node stored under
`key` in the node map. -/
def stepFun (kc : String × Nat) (key : String) (n : Node) : Node :=
  { n with
    outgoing := n.outgoing ++ (if relSrcId kc.1 == key then [relEdgeId kc.1] else [])
    incoming := n.incoming ++ (if relTgtId kc.1 == key then [relEdgeId kc.1] else []) }

/-- Proof device: the accumulated effect of processing a relation list on the
node stored under `key` in the node map. -/
def applyRels (rels : List (String × Nat)) (key : String) (n : Node) : Node :=
  { n with
    outgoing := n.outgoing
      ++ ((rels.filter (fun kc => relSrcId kc.1 == key)).map (fun kc => relEdgeId kc.1))
    incoming := n.incoming
      ++ ((rels.filter (fun kc => relTgtId kc.1 == key)).map (fun kc => relEdgeId kc.1)) }

/-! # Theorems -/

/-! ## Association-list lemmas -/

theorem mapSet_forall {α : Type} (P : α → Prop) {m : List (String × α)} {k : String} {v : α}
    (hm : ∀ p ∈ m, P p.2) (hv : P v) : ∀ p ∈ mapSet m k v, P p.2 := by
  induction m with
  | nil =>
    intro p hp
    simp only [mapSet, List.mem_singleton] at hp
    subst hp; exact hv
  | cons q t ih =>
    intro p hp
    by_cases h : q.1 == k
    · simp only [mapSet, if_pos h] at hp
      rcases List.mem_cons.mp hp with h1 | h2
      · subst h1; exact hv
      · exact hm p (List.mem_cons_of_mem q h2)
    · simp only [mapSet, if_neg h] at hp
      rcases List.mem_cons.mp hp with h1 | h2
      · subst h1; exact hm p (List.mem_cons_self p t)
      · exact ih (fun r hr => hm r (List.mem_cons_of_mem q hr)) p h2

theorem mapUpdate_forall {α : Type} (P : α → Prop) {m : List (String × α)} {k : String}
    {f : α → α} (hm : ∀ p ∈ m, P p.2) (hf : ∀ a, P a → P (f a)) :
    ∀ p ∈ mapUpdate m k f, P p.2 := by
  intro p hp
  rcases List.mem_map.mp hp with ⟨q, hq, rfl⟩
  by_cases h : q.1 == k
  · simpa [h] using hf q.2 (hm q hq)
  · simpa [h] using hm q hq

theorem mapKeys_mapUpdate {α : Type} (m : List (String × α)) (k : String) (f : α → α) :
    (mapUpdate m k f).map (·.1) = m.map (·.1) := by
  induction m with
  | nil => rfl
  | cons q t ih =>
    simp only [mapUpdate, List.map_cons] at ih ⊢
    refine congrArg₂ List.cons ?_ ih
    by_cases h : q.1 == k <;> simp [h]

theorem mapHas_eq_contains {α : Type} (m : List (String × α)) (k : String) :
    mapHas m k = (m.map (·.1)).contains k := by
  induction m with
  | nil => rfl
  | cons q t ih =>
    simp only [mapHas, mapGet, List.map_cons, List.contains_cons] at ih ⊢
    by_cases h : q.1 == k
    · have h' : q.1 = k := by simpa using h
      simp [h', h]
    · have h' : ¬ q.1 = k := by simpa using h
      have h2 : (k == q.1) = false := by simpa using fun hk => h' hk.symm
      simp [h, h2, ih]

theorem mapKeys_mapSet {α : Type} (m : List (String × α)) (k : String) (v : α) :
    (mapSet m k v).map (·.1) = if mapHas m k then m.map (·.1) else m.map (·.1) ++ [k] := by
  induction m with
  | nil => simp [mapSet, mapHas, mapGet]
  | cons q t ih =>
    by_cases h : q.1 == k
    · have hk : q.1 = k := by simpa using h
      simp [mapSet, mapHas, mapGet, h, hk]
    · simp only [mapSet, h, if_neg, Bool.false_eq_true, not_false_iff]
      have hhas : mapHas (q :: t) k = mapHas t k := by simp [mapHas, mapGet, h]
      by_cases h2 : mapHas t k
      · simp [hhas, h2, List.map_cons, ih]
      · simp [hhas, h2, List.map_cons, ih]

/-! ## C1: cyclomatic complexity and connected components -/

/-- Counterexample for C1: on a well-formed graph made of two disjoint
2-node/1-edge chains, `calculateMcCabeComplexity` does not equal
`|edges| - |nodes| + 2 * connectedComponents` for the traversal-computed
component count (the code returns `2 - 4 + 2 = 0`, the claim demands
`2 - 4 + 2 * 2 = 2`). -/
theorem mccabe_twoChains_counterexample :
    calculateMcCabeComplexity twoChains ≠
      (twoChains.edges.length : Int) - (twoChains.nodes.length : Int)
        + 2 * (specConnectedComponents twoChains : Int) := by decide

/-- C1 (amended): for every ProcessGraph, `calculateMcCabeComplexity`
equals `|edges| - |nodes| + 2`, because `countConnectedComponents` is
hard-coded to the constant `1` rather than computed by traversal. -/
theorem mccabe_formula_uses_constant_component_count (g : ProcessGraph) :
    calculateMcCabeComplexity g = (g.edges.length : Int) - (g.nodes.length : Int) + 2 := by
  simp [calculateMcCabeComplexity, countConnectedComponents]

/-! ## C9: behaviour on the empty graph -/

/-- Counterexample for C9: on the graph with zero nodes and zero edges the
engine yields cyclomatic complexity `2`, not `0`. -/
theorem empty_graph_complexity_counterexample :
    ¬ (calculateMcCabeComplexity emptyGraph = 0) := by decide

/-- C9 (amended): the metrics functions are total, and on the graph with zero
nodes and zero edges they yield cyclomatic complexity `2` (components are
hard-coded to `1`) and an empty bottleneck list. -/
theorem empty_graph_metrics :
    calculateMcCabeComplexity emptyGraph = 2 ∧ identifyBottlenecks emptyGraph = [] := by
  exact ⟨by decide, rfl⟩

/-! ## C7: the auto strategy -/

/-- Counterexample for C7: at a concrete input, generating recommendations
with strategy `auto` fails instead of returning the combined strategy
outputs. -/
theorem auto_strategy_error_counterexample :
    generateRecommendations trivialProcess trivialAnalysis "auto"
      = .error "identifySlowPaths method not implemented" := rfl

/-- C7 (amended): the `auto` strategy runs `performance`, `cost-reduction`
and `compliance` in that order (never `simplicity`), but
`optimizeForPerformance` unconditionally calls the unimplemented
`identifySlowPaths`, and `optimizeForCompliance` is itself unimplemented, so
generation with `auto` always propagates the first error and never returns a
recommendation list. -/
theorem auto_strategy_always_errors (p : Process) (an : Analysis) :
    strategyLookup "auto" = some optimizeAuto ∧
    optimizeForPerformance p an = .error "identifySlowPaths method not implemented" ∧
    optimizeForCost p an = .ok [] ∧
    optimizeForCompliance p an = .error "optimizeForCompliance method not implemented" ∧
    optimizeAuto p an = .error "identifySlowPaths method not implemented" ∧
    generateRecommendations p an "auto" = .error "identifySlowPaths method not implemented" :=
  ⟨rfl, rfl, rfl, rfl, rfl, rfl⟩

/-! ## C8: compliance aggregation -/

theorem foldl_add_score (l : List ComplianceCheck) (n : Nat) :
    l.foldl (fun acc c => acc + c.score) n = n + (l.map ComplianceCheck.score).sum := by
  induction l generalizing n with
  | nil => simp
  | cons c t ih => simp [ih, Nat.add_assoc]

/-- C8: the compliance scorer runs ISO 9001, GDPR, SOX and accessibility in
this fixed order, preserved in the output; `overallScore` is the floor of the
mean of the check scores (`Nat` division) and `failedChecks` counts the checks
with `passed = false`; on a process whose checks score `[100, 75, 50, 95]` the
overall score is `80`. -/
theorem compliance_order_and_aggregate :
    (∀ p : Process,
      (analyzeCompliance p).standards
        = [checkISO9001 p, checkGDPR p, checkSOX p, checkAccessibility p] ∧
      ((analyzeCompliance p).standards.map ComplianceCheck.name)
        = ["ISO 9001:2015", "GDPR / DS-GVO", "SOX Compliance", "Barrierefreiheit (WCAG)"] ∧
      (analyzeCompliance p).overallScore
        = ((analyzeCompliance p).standards.map ComplianceCheck.score).sum
            / (analyzeCompliance p).standards.length ∧
      (analyzeCompliance p).failedChecks
        = ((analyzeCompliance p).standards.filter (fun c => !c.passed)).length) ∧
    ((analyzeCompliance complianceExample).standards.map ComplianceCheck.score
        = [100, 75, 50, 95] ∧
      (analyzeCompliance complianceExample).overallScore = 80) := by
  constructor
  · intro p
    refine ⟨rfl, ?_, ?_, rfl⟩
    · simp [analyzeCompliance, checkISO9001, checkGDPR, checkSOX, checkAccessibility]
    · simp [analyzeCompliance, calculateComplianceScore, foldl_add_score, Nat.add_assoc]
  · exact ⟨by decide, by decide⟩

/-! ## C3: node-id collisions -/

theorem mapKeys_ite_update {α : Type} (c : Prop) [Decidable c] (m : List (String × α))
    (k : String) (f : α → α) :
    ((if c then mapUpdate m k f else m).map (·.1)) = m.map (·.1) := by
  split
  · exact mapKeys_mapUpdate m k f
  · rfl

theorem relFold_keys (rels : List (String × Nat))
    (st : List (String × Node) × List (String × Edge)) :
    ((rels.foldl relStep st).1).map (·.1) = st.1.map (·.1) := by
  induction rels generalizing st with
  | nil => rfl
  | cons kc t ih =>
    rw [List.foldl_cons, ih]
    simp only [relStep]
    rw [mapKeys_ite_update, mapKeys_ite_update]

theorem mapKeys_foldl_taskNodes (l : List String) (m : List (String × Node)) :
    ((l.foldl (fun m a => mapSet m (taskId a) (mkTaskNode a)) m).map (·.1))
      = (l.map taskId).foldl setAdd (m.map (·.1)) := by
  induction l generalizing m with
  | nil => rfl
  | cons a t ih =>
    rw [List.foldl_cons, ih, List.map_cons, List.foldl_cons]
    congr 1
    rw [mapKeys_mapSet, mapHas_eq_contains, setAdd]

/-- Counterexample for C3: `"A.B"` and `"A_B"` are two distinct activity
names that sanitize to the same node id; graph synthesis does not fail with
any error — it produces a single merged node (whose `name` is the later
activity). -/
theorem collision_counterexample :
    ¬("A.B" = "A_B") ∧ taskId "A.B" = taskId "A_B" ∧
    (createGraphFromDFG collisionDFG).nodes.map (·.1) = ["task_A_B"] ∧
    (createGraphFromDFG collisionDFG).nodes.length = 1 ∧
    (mapGet (createGraphFromDFG collisionDFG).nodes "task_A_B").map Node.name
      = some "A_B" := by decide

/-- C3 (amended): synthesis never fails on id collisions; the node map keys
are exactly the insertion-order deduplication of the sanitized task ids, so
two distinct activities with equal sanitized ids are silently merged into one
node (the later write overwrites the earlier node). -/
theorem node_map_keys_dedup (dfg : DFG) :
    (createGraphFromDFG dfg).nodes.map (·.1) = dedupKeep (dfg.nodes.map taskId) := by
  simp only [createGraphFromDFG]
  rw [relFold_keys, mapKeys_foldl_taskNodes]
  rfl

/-! ## C10: mined node types versus the task selectors -/

theorem createGraph_node_types (dfg : DFG) :
    ∀ p ∈ (createGraphFromDFG dfg).nodes, p.2.type = "task" := by
  have h0 : ∀ (l : List String) (m : List (String × Node)),
      (∀ p ∈ m, p.2.type = "task") →
      ∀ p ∈ l.foldl (fun m a => mapSet m (taskId a) (mkTaskNode a)) m, p.2.type = "task" := by
    intro l
    induction l with
    | nil => intro m hm; simpa using hm
    | cons a t ih =>
      intro m hm
      rw [List.foldl_cons]
      exact ih _ (mapSet_forall (fun n : Node => n.type = "task") hm rfl)
  have hstep : ∀ (m : List (String × Node)) (k : String) (f : Node → Node),
      (∀ p ∈ m, p.2.type = "task") → (∀ n, n.type = "task" → (f n).type = "task") →
      ∀ p ∈ (if mapHas m k then mapUpdate m k f else m), p.2.type = "task" := by
    intro m k f hm hf
    split
    · exact mapUpdate_forall _ hm hf
    · exact hm
  have h1 : ∀ (rels : List (String × Nat)) (st : List (String × Node) × List (String × Edge)),
      (∀ p ∈ st.1, p.2.type = "task") →
      ∀ p ∈ (rels.foldl relStep st).1, p.2.type = "task" := by
    intro rels
    induction rels with
    | nil => intro st hst; simpa using hst
    | cons kc t ih =>
      intro st hst
      rw [List.foldl_cons]
      apply ih
      simp only [relStep]
      exact hstep _ _ _ (hstep _ _ _ hst (fun n h => h)) (fun n h => h)
  intro p hp
  simp only [createGraphFromDFG] at hp
  exact h1 _ _ (h0 _ [] (by simp)) p hp

/-- C10: every node the mining engine puts into a synthesized graph has type
exactly `"task"`, while the analysis engine selects tasks with the
case-sensitive containment of the capitalized substring Task; hence on every mined graph the
selected task list is empty, the estimated duration is `0` minutes, and the
ISO 9001 minimum-tasks sub-check never passes. -/
theorem mined_task_type_mismatch (dfg : DFG) :
    (∀ n ∈ nodeValues (createGraphFromDFG dfg), n.type = "task") ∧
    jsIncludes "task" "Task" = false ∧
    taskNodes (createGraphFromDFG dfg) = [] ∧
    (analyzePerformance ⟨createGraphFromDFG dfg⟩).estimatedDuration = 0 ∧
    (checkISO9001 ⟨createGraphFromDFG dfg⟩).details.get? 2
      = some { name := "Minimale Prozess-Tiefe", passed := false } := by
  have htypes : ∀ n ∈ nodeValues (createGraphFromDFG dfg), n.type = "task" := by
    intro n hn
    rcases List.mem_map.mp hn with ⟨p, hp, rfl⟩
    exact createGraph_node_types dfg p hp
  have hfalse : ∀ n ∈ nodeValues (createGraphFromDFG dfg), isTaskTyped n = false := by
    intro n hn
    rw [isTaskTyped, htypes n hn]
    decide
  have hnil : taskNodes (createGraphFromDFG dfg) = [] := by
    rw [taskNodes]
    exact List.filter_eq_nil_iff.mpr (fun n hn => by simp [hfalse n hn])
  refine ⟨htypes, by decide, hnil, ?_, ?_⟩
  · simp [analyzePerformance, estimateProcessDuration, hnil]
  · have hnil' : ((nodeValues (createGraphFromDFG dfg)).filter isTaskTyped) = [] := hnil
    simp [checkISO9001, hnil']

/-! ## C5: DFG count conservation -/

theorem sumValues_mapSet_incr (m : List (String × Nat)) (k : String) :
    sumValues (mapSet m k (mapGetD m k 0 + 1)) = sumValues m + 1 := by
  induction m with
  | nil => simp [mapSet, sumValues, mapGetD, mapGet]
  | cons p t ih =>
    by_cases h : p.1 == k
    · simp [mapSet, h, sumValues, mapGetD, mapGet]
      omega
    · simp only [mapSet, if_neg h, sumValues, List.map_cons, List.sum_cons]
      have hd : mapGetD (p :: t) k 0 = mapGetD t k 0 := by
        simp [mapGetD, mapGet, h]
      rw [hd]
      have := ih
      simp only [sumValues] at this
      omega

theorem sumValues_relFold (ps : List (String × String)) (m : List (String × Nat)) :
    sumValues (ps.foldl
      (fun m p => mapSet m (relKey p.1 p.2) (mapGetD m (relKey p.1 p.2) 0 + 1)) m)
      = sumValues m + ps.length := by
  induction ps generalizing m with
  | nil => simp
  | cons p t ih =>
    rw [List.foldl_cons, ih, sumValues_mapSet_incr]
    simp only [List.length_cons]
    omega

/-- C5: for every trace mapping, the total of all directly-follows counts in
the built DFG equals the sum over traces of `max(length - 1, 0)` (stated with
truncated `Nat` subtraction): each consecutive pair contributes exactly one
increment. -/
theorem dfg_count_conservation (traces : List (String × List String)) :
    sumValues (buildDFG traces).relations
      = (traces.map (fun t => t.2.length - 1)).sum := by
  suffices h : ∀ (ts : List (String × List String)) (d : DFG),
      sumValues (ts.foldl (fun d t => processTrace d t.2) d).relations
        = sumValues d.relations + (ts.map (fun t => t.2.length - 1)).sum by
    simpa [buildDFG, emptyDFG, sumValues] using h traces emptyDFG
  intro ts
  induction ts with
  | nil => intro d; simp
  | cons t rest ih =>
    intro d
    rw [List.foldl_cons, ih]
    have hone : sumValues (processTrace d t.2).relations
        = sumValues d.relations + (t.2.length - 1) := by
      cases ht : t.2 with
      | nil => simp [processTrace]
      | cons a r =>
        simp only [processTrace, sumValues_relFold, List.length_zip, List.length_cons]
        omega
    rw [hone, List.map_cons, List.sum_cons]
    omega

/-! ## C4: trace extraction -/

theorem tracesPairs_step (traces : List (String × List String)) (c a : String) :
    (tracesPairs (mapSet traces c (mapGetD traces c [] ++ [a]))).Perm
      ((c, a) :: tracesPairs traces) := by
  induction traces with
  | nil => simp [mapSet, tracesPairs, mapGetD, mapGet]
  | cons q t ih =>
    obtain ⟨k, acts⟩ := q
    by_cases h : (k == c)
    · have hk : k = c := by simpa using h
      subst hk
      have hget : mapGetD ((k, acts) :: t) k ([] : List String) = acts := by
        simp [mapGetD, mapGet]
      simp only [mapSet, beq_self_eq_true, if_pos, hget, tracesPairs, List.flatMap_cons,
        List.map_append, List.map_cons, List.map_nil, List.append_assoc,
        List.singleton_append]
      exact List.perm_middle
    · have hget : mapGetD ((k, acts) :: t) c ([] : List String) = mapGetD t c [] := by
      -- the head key differs from `c`, so lookup skips it
        simp [mapGetD, mapGet, h]
      simp only [mapSet, if_neg h, hget, tracesPairs, List.flatMap_cons]
      have ih' := ih
      simp only [tracesPairs, hget] at ih'
      exact (List.Perm.append_left _ ih').trans List.perm_middle

theorem tracesPairs_foldl (l : List Event) (t0 : List (String × List String)) :
    (tracesPairs (l.foldl
        (fun traces e => mapSet traces e.caseId (mapGetD traces e.caseId [] ++ [e.activity]))
        t0)).Perm
      (l.map (fun e => (e.caseId, e.activity)) ++ tracesPairs t0) := by
  induction l generalizing t0 with
  | nil => simp
  | cons e rest ih =>
    rw [List.foldl_cons, List.map_cons, List.cons_append]
    exact ((ih _).trans
      (List.Perm.append_left _ (tracesPairs_step t0 e.caseId e.activity))).trans
      List.perm_middle

/-- Counterexample for C4: a log whose single event has an unparsable
timestamp is not rejected — extraction returns the full trace mapping and
discovery succeeds; no `MalformedEventError` exists in the code. -/
theorem unparsable_timestamp_counterexample :
    extractTraces [badEvent] = [("1", ["A"])] ∧
    exceptIsOk (discover [badEvent]) = true := by
  constructor
  · simp [extractTraces, badEvent, mapSet, mapGetD, mapGet]
  · simp [discover, exceptIsOk]

/-- C4 (amended): `discover` errors (with the empty-log error) exactly on the
empty log; timestamps are never validated, so on every non-empty log the full
trace mapping is returned with no event dropped — the multiset of
`(caseId, activity)` pairs in the traces equals that of the input log. -/
theorem extraction_total_no_drop (log : List Event) :
    (log = [] → discover log = .error "Kein Event Log vorhanden") ∧
    (log ≠ [] → exceptIsOk (discover log) = true) ∧
    (tracesPairs (extractTraces log)).Perm
      (log.map (fun e => (e.caseId, e.activity))) := by
  refine ⟨?_, ?_, ?_⟩
  · intro h; subst h; rfl
  · intro h
    simp [discover, exceptIsOk, h]
  · have h1 := tracesPairs_foldl (log.mergeSort dateCmpLe) []
    rw [show tracesPairs ([] : List (String × List String)) = [] from rfl,
      List.append_nil] at h1
    refine List.Perm.trans ?_ ((List.mergeSort_perm log dateCmpLe).map _)
    simpa [extractTraces] using h1

/-- Witness for the amended C4 at a concrete input. -/
theorem extraction_total_no_drop_witness :
    exceptIsOk (discover [badEvent]) = true :=
  (extraction_total_no_drop [badEvent]).2.1 (List.cons_ne_nil _ _)

/-! ## C6: recommendation scoring, prioritization and ordering -/

theorem opt_weight (o : Option ℚ) (w : ℚ) :
    (match o with | some v => v * w | none => 0) = o.getD 0 * w := by
  cases o <;> simp

/-- C6: `prioritizeRecommendations` returns a permutation of the enriched
candidates, sorted by score descending, stably (every comparator-sorted
sublist of the input survives as a sublist of the output, so ties keep their
original order); each enriched candidate carries the clamped weighted score
(absent fields contribute 0), the thresholded priority, and
`timeline = effort`. -/
theorem recommendation_scoring_and_ordering (recs : List Recommendation) :
    (prioritizeRecommendations recs).Perm (recs.map enrichRecommendation) ∧
    (prioritizeRecommendations recs).Pairwise (fun a b => b.score ≤ a.score) ∧
    (∀ c : List ScoredRecommendation, c.Pairwise (fun a b => scoreDescLe a b = true) →
        c.Sublist (recs.map enrichRecommendation) →
        c.Sublist (prioritizeRecommendations recs)) ∧
    (∀ r : Recommendation,
      (enrichRecommendation r).score
        = max 0 (min 1 ((r.impact.getD 0) * (4/10) + (r.roi.getD 0) * (3/10)
            + (r.effort.getD 0) * (-2/10) + (r.confidence.getD 0) * (1/10))) ∧
      ((7:ℚ)/10 < (enrichRecommendation r).score →
          (enrichRecommendation r).priority = "high") ∧
      ((enrichRecommendation r).score ≤ 7/10 → (4:ℚ)/10 < (enrichRecommendation r).score →
          (enrichRecommendation r).priority = "medium") ∧
      ((enrichRecommendation r).score ≤ 4/10 →
          (enrichRecommendation r).priority = "low") ∧
      (enrichRecommendation r).timeline = r.effort) := by
  have htrans : ∀ a b c : ScoredRecommendation,
      scoreDescLe a b = true → scoreDescLe b c = true → scoreDescLe a c = true := by
    intro a b c hab hbc
    simp only [scoreDescLe, decide_eq_true_eq] at *
    exact le_trans hbc hab
  have htotal : ∀ a b : ScoredRecommendation,
      (scoreDescLe a b || scoreDescLe b a) = true := by
    intro a b
    simp only [scoreDescLe, Bool.or_eq_true, decide_eq_true_eq]
    exact le_total b.score a.score
  refine ⟨?_, ?_, ?_, ?_⟩
  · exact List.mergeSort_perm _ scoreDescLe
  · exact List.Pairwise.imp (fun h => by simpa [scoreDescLe] using h)
      (List.sorted_mergeSort htrans htotal (recs.map enrichRecommendation))
  · intro c hc hsub
    exact List.sublist_mergeSort htrans htotal hc hsub
  · intro r
    refine ⟨?_, ?_, ?_, ?_, rfl⟩
    · simp [enrichRecommendation, calculateRecommendationScore, opt_weight]
    · intro h
      simp only [enrichRecommendation] at h ⊢
      rw [if_pos h]
    · intro h1 h2
      simp only [enrichRecommendation] at h1 h2 ⊢
      rw [if_neg (not_lt.mpr h1), if_pos h2]
    · intro h
      simp only [enrichRecommendation] at h ⊢
      rw [if_neg (not_lt.mpr (le_trans h (by norm_num))), if_neg (not_lt.mpr h)]

/-- Witness for C6 at the determinism example of the specification: the
singleton holding the low-scoring candidate is a comparator-sorted sublist of
the input and survives in the prioritized output. -/
theorem recommendation_scoring_witness :
    [enrichRecommendation recLo].Sublist (prioritizeRecommendations [recHi, recLo]) :=
  (recommendation_scoring_and_ordering [recHi, recLo]).2.2.1 [enrichRecommendation recLo]
    (List.pairwise_singleton _ _) (List.Sublist.cons _ (List.Sublist.refl _))

/-! ## C2: the synthesized-graph invariant -/

theorem string_append_left_cancel {s a b : String} (h : s ++ a = s ++ b) : a = b := by
  have hd := congrArg String.data h
  simp only [String.data_append] at hd
  exact String.ext (List.append_cancel_left hd)

theorem task_ne_start (u v : String) : ("task_" ++ u) ≠ ("start_" ++ v) := by
  intro h
  have hd := congrArg String.data h
  simp only [String.data_append] at hd
  simp at hd

theorem startEdgeId_ne_relEdgeId (a k : String) : startEdgeId a ≠ relEdgeId k := by
  intro h
  have hd := congrArg String.data h
  simp only [startEdgeId, relEdgeId, startId, taskId, relSrcId, relTgtId,
    String.data_append] at hd
  simp at hd

theorem taskId_cancel {a b : String} (h : taskId a = taskId b) : sanitize a = sanitize b :=
  string_append_left_cancel h

theorem startEdgeId_cancel {a b : String} (h : startEdgeId a = startEdgeId b) :
    sanitize a = sanitize b := by
  have hd := congrArg String.data h
  simp only [startEdgeId, startId, taskId, String.data_append, List.append_assoc] at hd
  simp only [List.cons_append, List.nil_append] at hd
  simp only [List.cons.injEq, true_and] at hd
  have hlen := congrArg List.length hd
  simp only [List.length_append, List.length_cons] at hlen
  exact String.ext (List.append_inj hd (by omega)).1

theorem mapGet_eq_none {α : Type} {m : List (String × α)} {k : String} :
    mapGet m k = none ↔ ∀ p ∈ m, ¬ p.1 = k := by
  induction m with
  | nil => simp [mapGet]
  | cons q t ih =>
    by_cases h : (q.1 == k)
    · have hq : q.1 = k := by simpa using h
      simp [mapGet, h, hq]
    · have hq : ¬ q.1 = k := by simpa using h
      simp [mapGet, h, hq, ih]

theorem mapGet_append_of_none {α : Type} {m1 : List (String × α)} {k : String}
    (m2 : List (String × α)) (h : mapGet m1 k = none) :
    mapGet (m1 ++ m2) k = mapGet m2 k := by
  induction m1 with
  | nil => rfl
  | cons q t ih =>
    by_cases hc : (q.1 == k)
    · simp [mapGet, hc] at h
    · simp only [mapGet, hc] at h
      simp only [List.cons_append, mapGet, hc, if_neg]
      exact ih h

theorem mapSet_append_new {α : Type} {m : List (String × α)} {k : String} {v : α}
    (h : mapGet m k = none) : mapSet m k v = m ++ [(k, v)] := by
  induction m with
  | nil => rfl
  | cons q t ih =>
    by_cases hc : (q.1 == k)
    · simp [mapGet, hc] at h
    · simp only [mapGet, hc] at h
      simp only [Bool.false_eq_true, if_false] at h
      simp [mapSet, hc, ih h]

theorem foldl_mapSet_append {α : Type} (f : String → String) (g : String → α) :
    ∀ (l : List String) (m : List (String × α)), (l.map f).Nodup →
      (∀ a ∈ l, mapGet m (f a) = none) →
      l.foldl (fun m a => mapSet m (f a) (g a)) m = m ++ l.map (fun a => (f a, g a)) := by
  intro l
  induction l with
  | nil => intro m _ _; simp
  | cons a t ih =>
    intro m hnd hnew
    have hhead : f a ∉ t.map f := by
      simp only [List.map_cons, List.nodup_cons] at hnd
      exact hnd.1
    have htail : (t.map f).Nodup := by
      simp only [List.map_cons, List.nodup_cons] at hnd
      exact hnd.2
    rw [List.foldl_cons, mapSet_append_new (hnew a (List.mem_cons_self a t))]
    rw [ih (m ++ [(f a, g a)]) htail ?_]
    · simp [List.append_assoc]
    · intro b hb
      rw [mapGet_append_of_none _ (hnew b (List.mem_cons_of_mem a hb))]
      have hne : ¬ (f a == f b) = true := by
        simp only [beq_iff_eq]
        intro he
        exact hhead (he ▸ List.mem_map_of_mem f hb)
      simp [mapGet, hne]

theorem mapGet_map_pair {α β : Type} (l : List (String × α)) (h : String → α → β)
    (k : String) :
    mapGet (l.map (fun p => (p.1, h p.1 p.2))) k = (mapGet l k).map (fun v => h k v) := by
  induction l with
  | nil => rfl
  | cons q t ih =>
    by_cases hc : (q.1 == k)
    · have hq : q.1 = k := by simpa using hc
      simp [mapGet, hc, hq]
    · simp [mapGet, hc, ih]

theorem mapGet_map_fn_mem {α : Type} (f : String → String) (g : String → α) :
    ∀ (l : List String), (l.map f).Nodup → ∀ {a}, a ∈ l →
      mapGet (l.map fun a => (f a, g a)) (f a) = some (g a) := by
  intro l
  induction l with
  | nil => intro _ a ha; cases ha
  | cons b t ih =>
    intro hnd a ha
    have hhead : f b ∉ t.map f := by
      simp only [List.map_cons, List.nodup_cons] at hnd
      exact hnd.1
    have htail : (t.map f).Nodup := by
      simp only [List.map_cons, List.nodup_cons] at hnd
      exact hnd.2
    by_cases hc : (f b == f a)
    · have hfeq : f b = f a := by simpa using hc
      simp only [List.map_cons, mapGet, hc, if_pos]
      rcases List.mem_cons.mp ha with rfl | hat
      · rfl
      · exact absurd (hfeq ▸ List.mem_map_of_mem f hat) hhead
    · rcases List.mem_cons.mp ha with rfl | hat
      · exact absurd (beq_self_eq_true (f a)) hc
      · simp only [List.map_cons, mapGet, hc, if_neg, Bool.false_eq_true, not_false_iff]
        exact ih htail hat

theorem guarded_update_eq_map (m : List (String × Node)) (k : String) (f : Node → Node) :
    (if mapHas m k then mapUpdate m k f else m)
      = m.map (fun p => if p.1 == k then (p.1, f p.2) else p) := by
  split
  · rfl
  · rename_i h
    have hnone : mapGet m k = none := by
      cases hg : mapGet m k with
      | none => rfl
      | some v => exact absurd (by simp [mapHas, hg]) h
    have hall := mapGet_eq_none.mp hnone
    have h2 : m.map (fun p => if p.1 == k then (p.1, f p.2) else p) = m.map id :=
      List.map_congr_left (fun p hp => by
        simp [beq_eq_false_iff_ne.mpr (hall p hp), id_eq])
    rw [h2, List.map_id]

theorem relStep_nodes_eq_map (st : List (String × Node) × List (String × Edge))
    (kc : String × Nat) :
    (relStep st kc).1 = st.1.map (fun p => (p.1, stepFun kc p.1 p.2)) := by
  simp only [relStep]
  rw [guarded_update_eq_map, guarded_update_eq_map, List.map_map]
  refine List.map_congr_left ?_
  intro p _
  obtain ⟨key, n⟩ := p
  obtain ⟨i, nm, ty, inc, out, ln⟩ := n
  simp only [Function.comp, beq_iff_eq]
  by_cases h1 : key = relSrcId kc.1
  · subst h1
    by_cases h2 : relSrcId kc.1 = relTgtId kc.1
    · simp only [stepFun]
      rw [← h2]
      simp
    · simp [stepFun, h2, Ne.symm h2]
  · by_cases h2 : key = relTgtId kc.1
    · subst h2
      simp [stepFun, h1, Ne.symm h1]
    · simp [stepFun, h1, h2, Ne.symm h1, Ne.symm h2]

theorem applyRels_nil (key : String) (n : Node) : applyRels [] key n = n := by
  obtain ⟨i, nm, ty, inc, out, ln⟩ := n
  simp [applyRels]

theorem applyRels_cons (kc : String × Nat) (rels : List (String × Nat)) (key : String)
    (n : Node) : applyRels (kc :: rels) key n = applyRels rels key (stepFun kc key n) := by
  obtain ⟨i, nm, ty, inc, out, ln⟩ := n
  by_cases h1 : (relSrcId kc.1 == key)
  · by_cases h2 : (relTgtId kc.1 == key)
    · simp [applyRels, stepFun, List.filter_cons, h1, h2, List.append_assoc]
    · simp [applyRels, stepFun, List.filter_cons, h1, h2, List.append_assoc]
  · by_cases h2 : (relTgtId kc.1 == key)
    · simp [applyRels, stepFun, List.filter_cons, h1, h2, List.append_assoc]
    · simp [applyRels, stepFun, List.filter_cons, h1, h2, List.append_assoc]

theorem relFold_nodes (rels : List (String × Nat))
    (st : List (String × Node) × List (String × Edge)) :
    (rels.foldl relStep st).1 = st.1.map (fun p => (p.1, applyRels rels p.1 p.2)) := by
  induction rels generalizing st with
  | nil =>
    rw [List.foldl_nil]
    have h2 : st.1.map (fun p => (p.1, applyRels [] p.1 p.2)) = st.1.map id :=
      List.map_congr_left (fun p _ => by rw [applyRels_nil]; simp)
    rw [h2, List.map_id]
  | cons kc t ih =>
    rw [List.foldl_cons, ih, relStep_nodes_eq_map, List.map_map]
    exact List.map_congr_left (fun p _ => by
      simp only [Function.comp]
      rw [← applyRels_cons])

theorem relFold_edges :
    ∀ (rels : List (String × Nat)) (st : List (String × Node) × List (String × Edge)),
      (∀ kc ∈ rels, mapGet st.2 (relEdgeId kc.1) = none) →
      (rels.map (fun kc => relEdgeId kc.1)).Nodup →
      (rels.foldl relStep st).2
        = st.2 ++ rels.map (fun kc => (relEdgeId kc.1, mkRelEdge kc.1 kc.2)) := by
  intro rels
  induction rels with
  | nil => intro st _ _; simp
  | cons kc t ih =>
    intro st hnew hnd
    have hhead : relEdgeId kc.1 ∉ t.map (fun kc => relEdgeId kc.1) := by
      simp only [List.map_cons, List.nodup_cons] at hnd
      exact hnd.1
    have htail : (t.map (fun kc => relEdgeId kc.1)).Nodup := by
      simp only [List.map_cons, List.nodup_cons] at hnd
      exact hnd.2
    have hstep : (relStep st kc).2
        = st.2 ++ [(relEdgeId kc.1, mkRelEdge kc.1 kc.2)] := by
      have : (relStep st kc).2 = mapSet st.2 (relEdgeId kc.1) (mkRelEdge kc.1 kc.2) := rfl
      rw [this, mapSet_append_new (hnew kc (List.mem_cons_self kc t))]
    rw [List.foldl_cons, ih (relStep st kc) ?_ htail, hstep, List.append_assoc]
    · rfl
    · intro kc' hkc'
      rw [hstep, mapGet_append_of_none _ (hnew kc' (List.mem_cons_of_mem kc hkc'))]
      have hne : ¬ (relEdgeId kc.1 == relEdgeId kc'.1) = true := by
        simp only [beq_iff_eq]
        intro he
        exact hhead (he ▸ List.mem_map_of_mem _ hkc')
      simp [mapGet, hne]

/-- Counterexample for C2: in the graph synthesized from a DFG whose single
activity `A` is a start activity, the synthetic start edge
`edge_start_A_task_A` has source `start_A`, which does not resolve to any node
of the node map of the graph, and the `incoming` list of the target task node
is empty — it does not contain the start edge. -/
theorem start_edge_invariant_counterexample :
    (mapGet (createGraphFromDFG startOnlyDFG).edges "edge_start_A_task_A").map Edge.source
      = some "start_A" ∧
    mapGet (createGraphFromDFG startOnlyDFG).nodes "start_A" = none ∧
    (mapGet (createGraphFromDFG startOnlyDFG).nodes "task_A").map Node.incoming
      = some [] := by decide

/-- C2 (amended): for a DFG with duplicate-free, injectively-sanitizing
activity names, start activities among the nodes, well-splitting relation
keys and collision-free derived edge ids, the synthesized graph satisfies:
the edge map is exactly the start edges followed by the relation edges;
the source and target of every relation edge resolve to existing nodes; the
`outgoing` of every node equals exactly the edges that reference it as
source, and its `incoming` equals exactly the weight-carrying (relation) edges that
reference it as target — the synthetic start edges are never recorded in any
`incoming` list, and their `start_`-prefixed sources are absent from the node
map. -/
theorem synthesized_graph_invariant_amended (dfg : DFG)
    (hn : dfg.nodes.Nodup)
    (hinj : ∀ a ∈ dfg.nodes, ∀ b ∈ dfg.nodes, sanitize a = sanitize b → a = b)
    (hsn : ∀ a ∈ dfg.startNodes, a ∈ dfg.nodes)
    (hsnd : dfg.startNodes.Nodup)
    (hrel : ∀ kc ∈ dfg.relations, relSrc kc.1 ∈ dfg.nodes ∧ relTgt kc.1 ∈ dfg.nodes)
    (heids : (dfg.relations.map (fun kc => relEdgeId kc.1)).Nodup) :
    (createGraphFromDFG dfg).edges
      = dfg.startNodes.map (fun a => (startEdgeId a, mkStartEdge a))
        ++ dfg.relations.map (fun kc => (relEdgeId kc.1, mkRelEdge kc.1 kc.2)) ∧
    (∀ kc ∈ dfg.relations,
      mapHas (createGraphFromDFG dfg).nodes (relSrcId kc.1) = true ∧
      mapHas (createGraphFromDFG dfg).nodes (relTgtId kc.1) = true) ∧
    (∀ p ∈ (createGraphFromDFG dfg).nodes,
      p.2.outgoing = (((createGraphFromDFG dfg).edges.filter
          (fun q => q.2.source == p.1)).map (·.1)) ∧
      p.2.incoming = (((createGraphFromDFG dfg).edges.filter
          (fun q => q.2.target == p.1 && q.2.weight.isSome)).map (·.1))) ∧
    (∀ a ∈ dfg.startNodes, mapGet (createGraphFromDFG dfg).nodes (startId a) = none) := by
  have htinj : ∀ a ∈ dfg.nodes, ∀ b ∈ dfg.nodes, taskId a = taskId b → a = b :=
    fun a ha b hb h => hinj a ha b hb (taskId_cancel h)
  have htnd : (dfg.nodes.map taskId).Nodup := List.Nodup.map_on htinj hn
  have hsinj : ∀ a ∈ dfg.startNodes, ∀ b ∈ dfg.startNodes,
      startEdgeId a = startEdgeId b → a = b :=
    fun a ha b hb h => hinj a (hsn a ha) b (hsn b hb) (startEdgeId_cancel h)
  have hsend : (dfg.startNodes.map startEdgeId).Nodup := List.Nodup.map_on hsinj hsnd
  have hN : dfg.nodes.foldl (fun m a => mapSet m (taskId a) (mkTaskNode a)) []
      = dfg.nodes.map (fun a => (taskId a, mkTaskNode a)) := by
    rw [foldl_mapSet_append taskId mkTaskNode dfg.nodes [] htnd (fun a _ => rfl)]
    simp
  have hE1 : dfg.startNodes.foldl (fun ed a => mapSet ed (startEdgeId a) (mkStartEdge a)) []
      = dfg.startNodes.map (fun a => (startEdgeId a, mkStartEdge a)) := by
    rw [foldl_mapSet_append startEdgeId mkStartEdge dfg.startNodes [] hsend (fun a _ => rfl)]
    simp
  have hnew : ∀ kc ∈ dfg.relations,
      mapGet (dfg.startNodes.map (fun a => (startEdgeId a, mkStartEdge a)))
        (relEdgeId kc.1) = none := by
    intro kc _
    apply mapGet_eq_none.mpr
    intro p hp
    obtain ⟨b, _, rfl⟩ := List.mem_map.mp hp
    exact startEdgeId_ne_relEdgeId b kc.1
  have hedges : (createGraphFromDFG dfg).edges
      = dfg.startNodes.map (fun a => (startEdgeId a, mkStartEdge a))
        ++ dfg.relations.map (fun kc => (relEdgeId kc.1, mkRelEdge kc.1 kc.2)) := by
    simp only [createGraphFromDFG]
    rw [hE1, relFold_edges dfg.relations _ hnew heids]
  have hnodes : (createGraphFromDFG dfg).nodes
      = dfg.nodes.map
          (fun a => (taskId a, applyRels dfg.relations (taskId a) (mkTaskNode a))) := by
    simp only [createGraphFromDFG]
    rw [hE1, relFold_nodes, hN, List.map_map]
    exact List.map_congr_left (fun a _ => rfl)
  refine ⟨hedges, ?_, ?_, ?_⟩
  · intro kc hkc
    obtain ⟨hsrc, htgt⟩ := hrel kc hkc
    constructor
    · rw [mapHas, hnodes]
      rw [show relSrcId kc.1 = taskId (relSrc kc.1) from rfl]
      rw [mapGet_map_fn_mem taskId _ dfg.nodes htnd hsrc]
      rfl
    · rw [mapHas, hnodes]
      rw [show relTgtId kc.1 = taskId (relTgt kc.1) from rfl]
      rw [mapGet_map_fn_mem taskId _ dfg.nodes htnd htgt]
      rfl
  · intro p hp
    rw [hnodes] at hp
    obtain ⟨a, _, rfl⟩ := List.mem_map.mp hp
    constructor
    · rw [hedges, List.filter_append]
      have hse : ((dfg.startNodes.map (fun b => (startEdgeId b, mkStartEdge b))).filter
          (fun q => q.2.source == (taskId a, applyRels dfg.relations (taskId a)
            (mkTaskNode a)).1)) = [] := by
        apply List.filter_eq_nil_iff.mpr
        intro q hq
        obtain ⟨b, _, rfl⟩ := List.mem_map.mp hq
        simp only [mkStartEdge, beq_iff_eq]
        exact fun h => task_ne_start (sanitize a) (sanitize b) h.symm
      rw [hse, List.nil_append, List.filter_map, List.map_map]
      rfl
    · rw [hedges, List.filter_append]
      have hse : ((dfg.startNodes.map (fun b => (startEdgeId b, mkStartEdge b))).filter
          (fun q => q.2.target == (taskId a, applyRels dfg.relations (taskId a)
            (mkTaskNode a)).1 && q.2.weight.isSome)) = [] := by
        apply List.filter_eq_nil_iff.mpr
        intro q hq
        obtain ⟨b, _, rfl⟩ := List.mem_map.mp hq
        simp [mkStartEdge]
      rw [hse, List.nil_append, List.filter_map, List.map_map]
      have hfil : dfg.relations.filter
            ((fun q => q.2.target == (taskId a, applyRels dfg.relations (taskId a)
                (mkTaskNode a)).1 && q.2.weight.isSome)
              ∘ (fun kc => (relEdgeId kc.1, mkRelEdge kc.1 kc.2)))
          = dfg.relations.filter (fun kc => relTgtId kc.1 == taskId a) :=
        List.filter_congr (fun kc _ => by simp [Function.comp, mkRelEdge])
      rw [hfil]
      rfl
  · intro a _
    rw [hnodes]
    apply mapGet_eq_none.mpr
    intro p hp
    obtain ⟨b, _, rfl⟩ := List.mem_map.mp hp
    exact fun h => task_ne_start (sanitize b) (sanitize a) h

/-- Witness for the amended C2 at the end-to-end mining scenario of the
specification (all hypotheses hold there by evaluation). -/
theorem synthesized_graph_invariant_witness :
    (createGraphFromDFG dfgExample).edges
      = dfgExample.startNodes.map (fun a => (startEdgeId a, mkStartEdge a))
        ++ dfgExample.relations.map (fun kc => (relEdgeId kc.1, mkRelEdge kc.1 kc.2)) :=
  (synthesized_graph_invariant_amended dfgExample (by decide) (by decide) (by decide)
    (by decide) (by decide) (by decide)).1

end BPMN
